import Mathlib

set_option maxRecDepth 8000

/-!
Verification of the excel-to-json conversion engine (`src/server.ts`).

The repository's core is a two-stage transformation:
  * `main` (tabularizer): turns each sheet's 2D grid of string cells plus a
    header-row index into a sequence of keyed records;
  * `filterColumns` / `filterAndTranslateRow` (column mapper): applies a list
    of field specifications to each record, producing renamed, numeric,
    formatted and computed output fields, or dropping the row.

This file gives a shallow embedding of that engine.  JavaScript values that
can appear in a record cell are modelled by `Value`; JavaScript numbers are
modelled by `JsNum` (an exact rational, or NaN).  Records are association
lists with JavaScript object semantics (`lookupKey`, `setProp`,
`hasOwnProperty`).  All definitions are executable and follow the first
implementation in `src/server.ts`; the concrete field configurations of the
near-duplicate endpoints are only needed where a claim mentions them.
-/

/-- A JavaScript number: an exact rational or NaN.  The engine only ever
produces numbers through `parseFloat`/`Number` on decimal strings and through
rational arithmetic, so exact rationals model every value the claims touch. -/
inductive JsNum where
  | nan : JsNum
  | num (q : ℚ) : JsNum
deriving DecidableEq

/-- A JavaScript value stored in a table cell or output record:
a string, a (non-NaN) number, NaN, null, or undefined. -/
inductive Value where
  | vStr (s : String) : Value
  | vNum (q : ℚ) : Value
  | vNaN : Value
  | vNull : Value
  | vUndef : Value
deriving DecidableEq

/-- Embed a JavaScript number into `Value`. -/
def jsNumToValue : JsNum → Value
  | .nan => .vNaN
  | .num q => .vNum q

/-- JavaScript truthiness of a `Value` (`""`, `0`, `NaN`, `null`,
`undefined` are falsy). -/
def truthy : Value → Bool
  | .vStr s => if s = "" then false else true
  | .vNum q => if q = 0 then false else true
  | .vNaN => false
  | .vNull => false
  | .vUndef => false

/-- `v === null || v === undefined`. -/
def isNullish : Value → Bool
  | .vNull => true
  | .vUndef => true
  | _ => false

/-- A record (`TableData`): an association list from string keys to values,
with JavaScript object semantics.  Keys are unique by construction
(`setProp` updates in place). -/
abbrev Record := List (String × Value)

/-- One sheet's raw cell grid: rows of string cells; a cell index beyond a
row's length is `undefined` in the source and yields `null` in records. -/
abbrev Grid := List (List String)

/-- First-match association-list lookup, as JavaScript property access. -/
def lookupKey : Record → String → Option Value
  | [], _ => none
  | (k', v) :: t, k => if k' = k then some v else lookupKey t k

/-- `row[name]`: a missing key reads as `undefined`. -/
def getProp (r : Record) (k : String) : Value :=
  match lookupKey r k with
  | some v => v
  | none => Value.vUndef

/-- `row.hasOwnProperty(name)`. -/
def hasOwnProperty (r : Record) (k : String) : Bool :=
  (lookupKey r k).isSome

/-- `object[key] = value`: update in place if the key exists, else append
(JavaScript property-insertion order). -/
def setProp : Record → String → Value → Record
  | [], k, v => [(k, v)]
  | (k', v') :: t, k, v =>
      if k' = k then (k, v) :: t else (k', v') :: setProp t k v

/-- Whitespace test used by `String.prototype.trim` (the engine only meets
ASCII whitespace). -/
def isJsSpace (c : Char) : Bool := c.isWhitespace

/-- Drop whitespace from both ends of a character list. -/
def trimList (l : List Char) : List Char :=
  ((l.dropWhile isJsSpace).reverse.dropWhile isJsSpace).reverse

/-- `s.trim()`. -/
def jsTrim (s : String) : String := String.mk (trimList s.data)

/-- Decimal digit run to a natural number. -/
def digitsToNat (l : List Char) : ℕ :=
  l.foldl (fun n c => 10 * n + (c.toNat - 48)) 0

/-- Powers of ten over ℚ, written out recursively so concrete parses reduce
without deep type-class unfolding. -/
def pow10 : ℕ → ℚ
  | 0 => 1
  | n + 1 => 10 * pow10 n

/-- `10 ^ z` for an integer exponent. -/
def zpow10 : ℤ → ℚ
  | .ofNat n => pow10 n
  | .negSucc n => 1 / pow10 (n + 1)

/-- Longest-prefix decimal literal parser shared by `parseFloat` and string
`Number(..)` conversion: optional sign, digits, optional fraction, optional
exponent.  Returns the parsed value and the unconsumed remainder, or `none`
when no digit is found.  (`Infinity` and hexadecimal literals never arise
here: `cleanCurrencyValue` feeds strings over the alphabet `0-9.,-`.) -/
def parseDec (l : List Char) : Option (ℚ × List Char) :=
  let signAndRest : ℚ × List Char :=
    match l with
    | '-' :: t => (-1, t)
    | '+' :: t => (1, t)
    | _ => (1, l)
  let sign := signAndRest.1
  let l1 := signAndRest.2
  let intDs := l1.takeWhile Char.isDigit
  let r1 := l1.dropWhile Char.isDigit
  let fracAndRest : List Char × List Char :=
    match r1 with
    | '.' :: t => (t.takeWhile Char.isDigit, t.dropWhile Char.isDigit)
    | _ => ([], r1)
  let fracDs := fracAndRest.1
  let r2 := fracAndRest.2
  if intDs.isEmpty && fracDs.isEmpty then none
  else
    let mant : ℚ :=
      sign * ((digitsToNat intDs : ℚ) + (digitsToNat fracDs : ℚ) / pow10 fracDs.length)
    match r2 with
    | c :: t =>
        if c = 'e' || c = 'E' then
          let esignAndRest : ℤ × List Char :=
            match t with
            | '-' :: u => (-1, u)
            | '+' :: u => (1, u)
            | _ => (1, t)
          let eDs := esignAndRest.2.takeWhile Char.isDigit
          if eDs.isEmpty then some (mant, r2)
          else some (mant * zpow10 (esignAndRest.1 * (digitsToNat eDs : ℤ)),
            esignAndRest.2.dropWhile Char.isDigit)
        else some (mant, r2)
    | [] => some (mant, [])

/-- `parseFloat`: skip leading whitespace, parse the longest numeric prefix,
NaN when none exists. -/
def parseFloat (l : List Char) : JsNum :=
  match parseDec (l.dropWhile isJsSpace) with
  | some (q, _) => .num q
  | none => .nan

/-- String-to-number coercion `Number(s)`: trim, empty string is `0`, else
the whole string must be a numeric literal. -/
def jsStringToNumber (s : String) : JsNum :=
  let t := trimList s.data
  if t.isEmpty then .num 0
  else
    match parseDec t with
    | some (q, []) => .num q
    | _ => .nan

/-- `Number(v)` for record values. -/
def jsToNumber : Value → JsNum
  | .vStr s => jsStringToNumber s
  | .vNum q => .num q
  | .vNaN => .nan
  | .vNull => .num 0
  | .vUndef => .nan

/-- Character class of the regex `[^0-9.,-]` in `cleanCurrencyValue`:
characters that survive the strip. -/
def keepNumChar (c : Char) : Bool :=
  c.isDigit || c == '.' || c == ',' || c == '-'

/-- `s.replace(",", ".")`: replace only the first comma. -/
def replaceFirstComma : List Char → List Char
  | [] => []
  | c :: t => if c = ',' then '.' :: t else c :: replaceFirstComma t

/-- `cleanCurrencyValue` from `filterColumns`: for strings, strip every
character outside `0-9.,-`, trim, replace the first comma with a dot and
`parseFloat` the result; otherwise coerce with `Number(..)`. -/
def cleanCurrencyValue : Value → JsNum
  | .vStr s => parseFloat (replaceFirstComma (trimList (s.data.filter keepNumChar)))
  | .vNum q => .num q
  | .vNaN => .nan
  | .vNull => .num 0
  | .vUndef => .nan

/-- A mapped (or rename) field specification: the object variant of `Column`
with `original`/`translated`.  `format` returns `none` for `null`. -/
structure MappedField where
  original : Option String
  translated : String
  variations : List String := []
  excludeRowWhenNull : Bool := false
  isNumber : Bool := false
  isCurrency : Bool := false
  format : Option (List String → Option String) := none
  defaultValue : Option String := none

/-- A computed field specification: the `Column` variant with
`result`/`columns`/`operation`.  The operation is an arbitrary JavaScript
function on the grouped numeric matrix and may return NaN. -/
structure ComputedField where
  result : String
  columns : List String
  variations : List (String × List String) := []
  operation : List (List ℚ) → JsNum
  defaultValue : Option ℚ := none

/-- The `Column` union type: a bare string, a mapped field, or a computed
field. -/
inductive ColumnSpec where
  | plain (s : String) : ColumnSpec
  | mapped (f : MappedField) : ColumnSpec
  | computed (f : ComputedField) : ColumnSpec

/-- A normalized column (after `filterColumns` turns bare strings into
`\x7b original, translated \x7d` objects). -/
inductive NColumn where
  | mapped (f : MappedField) : NColumn
  | computed (f : ComputedField) : NColumn

/-- The normalization step at the top of `filterColumns`. -/
def normalizeColumn : ColumnSpec → NColumn
  | .plain s => .mapped { original := some s, translated := s }
  | .mapped f => .mapped f
  | .computed f => .computed f

/-- `column.variations?.[col] || []` for computed fields. -/
def variationsFor (vars : List (String × List String)) (col : String) : List String :=
  match vars.lookup col with
  | some l => l
  | none => []

/-- Extract the successfully parsed numbers (`.filter((v) => !isNaN(v))`). -/
def keepNums (l : List JsNum) : List ℚ :=
  l.filterMap fun x => match x with
    | JsNum.num q => some q
    | JsNum.nan => none

/-- Per source column of a computed field: clean every candidate name whose
value is present and non-null (absent/null candidates contribute NaN), then
keep only the non-NaN results, in candidate order. -/
def columnNumericValues (row : Record) (f : ComputedField) (col : String) : List ℚ :=
  let possibleNames := col :: variationsFor f.variations col
  keepNums (possibleNames.map fun name =>
    if getProp row name ≠ Value.vUndef ∧ getProp row name ≠ Value.vNull then
      cleanCurrencyValue (getProp row name)
    else JsNum.nan)

/-- The regrouping loop: row `i` collects the `i`-th element of every
per-column list that is long enough (`Math.max` of the lengths bounds `i`;
`Math.max()` of no lengths is `-Infinity`, i.e. no iterations, like `0`). -/
def groupedMatrix (values : List (List ℚ)) : List (List ℚ) :=
  let maxLength := (values.map List.length).foldl max 0
  (List.range maxLength).map fun i => values.filterMap fun v => v.get? i

/-- The 2D numeric matrix a computed field passes to its `operation`. -/
def codeMatrix (row : Record) (f : ComputedField) : List (List ℚ) :=
  groupedMatrix (f.columns.map (columnNumericValues row f))

/-- `result || column.defaultValue || 0` (first implementation in
`src/server.ts`): a falsy operation result (0 or NaN) falls back to the
default value, and a falsy default (unset or 0) to 0. -/
def computedStored (result : JsNum) (dv : Option ℚ) : ℚ :=
  let d0 : ℚ :=
    match dv with
    | some d => if d = 0 then 0 else d
    | none => 0
  match result with
  | .num q => if q = 0 then d0 else q
  | .nan => d0

/-- Processing of one computed column inside `filterAndTranslateRow`. -/
def computedAssign (row : Record) (f : ComputedField) (filteredRow : Record) : Record :=
  setProp filteredRow f.result
    (Value.vNum (computedStored (f.operation (codeMatrix row f)) f.defaultValue))

/-- State of the candidate-name loop of a mapped field: the output record
under construction, the row-exclusion flag, and the `valuesToFormat`
accumulator. -/
structure LoopState where
  filteredRow : Record
  excludeRow : Bool
  valuesToFormat : List String
deriving DecidableEq

/-- `[column.original, ...(column.variations || [])]`; the head may be
`undefined` for fields such as `\x7b translated, defaultValue \x7d`. -/
def possibleNamesOf (f : MappedField) : List (Option String) :=
  f.original :: f.variations.map some

/-- `if (typeof value === "string") valuesToFormat.push(value.trim())`. -/
def pushString : Value → List String
  | .vStr s => [jsTrim s]
  | _ => []

/-- The candidate-name loop (`for (const name of possibleNames) ...`) of a
mapped field in the first `src/server.ts` implementation.  An absent or
`undefined` name is skipped.  For a present name: the `excludeRowWhenNull`
check runs first; `isNumber && isCurrency` cleans the value, stores it and
breaks on success, or marks the row excluded and continues; `isNumber` alone
stores `value ? Number(value) : null` and breaks; every present string value
is pushed (trimmed) onto `valuesToFormat`; the loop breaks only once
`valueIsValid` was set, which happens solely in the numeric branches. -/
def mappedLoop (row : Record) (f : MappedField) : List (Option String) → LoopState → LoopState
  | [], st => st
  | Option.none :: rest, st => mappedLoop row f rest st
  | Option.some n :: rest, st =>
      if hasOwnProperty row n then
        let value := getProp row n
        let ex1 := st.excludeRow || (f.excludeRowWhenNull && isNullish value)
        if f.isNumber && f.isCurrency then
          match cleanCurrencyValue value with
          | .num q =>
              { filteredRow := setProp st.filteredRow f.translated (.vNum q)
                excludeRow := ex1
                valuesToFormat := st.valuesToFormat ++ pushString value }
          | .nan =>
              mappedLoop row f rest
                { filteredRow := st.filteredRow
                  excludeRow := true
                  valuesToFormat := st.valuesToFormat ++ pushString value }
        else if f.isNumber then
          { filteredRow := setProp st.filteredRow f.translated
              (if truthy value then jsNumToValue (jsToNumber value) else Value.vNull)
            excludeRow := ex1
            valuesToFormat := st.valuesToFormat ++ pushString value }
        else
          mappedLoop row f rest
            { filteredRow := st.filteredRow
              excludeRow := ex1
              valuesToFormat := st.valuesToFormat ++ pushString value }
      else mappedLoop row f rest st

/-- `x || column.defaultValue || null` for string results. -/
def strOrNull : Option String → Value
  | some d => if d = "" then .vNull else .vStr d
  | none => .vNull

/-- Two-step falsy fallback used after the candidate loop. -/
def strOrDefault (x dv : Option String) : Value :=
  match x with
  | some s => if s = "" then strOrNull dv else .vStr s
  | none => strOrNull dv

/-- Processing of one mapped column: run the candidate loop, then apply the
formatter (on the accumulated strings, or `[""]`), or, for a plain
non-numeric field, store the last accumulated string with the
`|| defaultValue || null` fallback. -/
def applyMapped (row : Record) (f : MappedField) (st : Record × Bool) : Record × Bool :=
  let res := mappedLoop row f (possibleNamesOf f) ⟨st.1, st.2, []⟩
  match f.format with
  | some fmt =>
      let arg := if res.valuesToFormat.isEmpty then [""] else res.valuesToFormat
      (setProp res.filteredRow f.translated (strOrDefault (fmt arg) f.defaultValue),
        res.excludeRow)
  | none =>
      if !f.isNumber && !f.isCurrency then
        (setProp res.filteredRow f.translated
          (strOrDefault res.valuesToFormat.getLast? f.defaultValue), res.excludeRow)
      else (res.filteredRow, res.excludeRow)

/-- One iteration of `normalizedColumns.forEach(...)`. -/
def applyColumn (row : Record) (st : Record × Bool) : NColumn → Record × Bool
  | .computed f => (computedAssign row f st.1, st.2)
  | .mapped f => applyMapped row f st

/-- `filterAndTranslateRow`: process every normalized column in order and
return `null` when the row was marked excluded. -/
def filterAndTranslateRow (columns : List ColumnSpec) (row : Record) : Option Record :=
  let res := (columns.map normalizeColumn).foldl (applyColumn row) ([], false)
  if res.2 then none else some res.1

/-- The union shape `\x7b [sheetName: string]: TableData[] \x7d | TableData[]`
flowing between `main` and `filterColumns`. -/
inductive SheetsOrFlat where
  | grouped (m : List (String × List Record)) : SheetsOrFlat
  | flat (l : List Record) : SheetsOrFlat
deriving DecidableEq

/-- `filterColumns`: map `filterAndTranslateRow` over every row and drop the
`null` results, per sheet when the data is grouped. -/
def filterColumns (data : SheetsOrFlat) (columns : List ColumnSpec) : SheetsOrFlat :=
  match data with
  | .flat l => .flat ((l.map (filterAndTranslateRow columns)).filterMap id)
  | .grouped m =>
      .grouped (m.map fun p => (p.1, (p.2.map (filterAndTranslateRow columns)).filterMap id))

/-- `values[i][j] !== undefined ? values[i][j] : null`. -/
def cellValue (row : List String) (j : ℕ) : Value :=
  match row.get? j with
  | some s => .vStr s
  | none => .vNull

/-- The inner loop of `main`: `object[objectKeys[j]] = ...` for `j` ranging
over the header keys, starting at cell index `j`. -/
def rowToObjectAux (row : List String) : Record → ℕ → List String → Record
  | obj, _, [] => obj
  | obj, j, k :: ks => rowToObjectAux row (setProp obj k (cellValue row j)) (j + 1) ks

/-- Build one record by zipping the header keys with a data row. -/
def rowToObject (objectKeys : List String) (row : List String) : Record :=
  rowToObjectAux row [] 0 objectKeys

/-- The per-sheet row loop of `main`: `i` counts rows; the row at
`headerRowIndex` sets `objectKeys` (trimmed), earlier rows are skipped, and
every later row is emitted as a record. -/
def tabAux (h : ℕ) : ℕ → List String → List (List String) → List Record
  | _, _, [] => []
  | i, keys, r :: rest =>
      if i = h then tabAux h (i + 1) (r.map jsTrim) rest
      else if i ≤ h then tabAux h (i + 1) keys rest
      else rowToObject keys r :: tabAux h (i + 1) keys rest

/-- Tabularize one sheet with the given header-row index. -/
def tabularizeSheet (values : Grid) (headerRowIndex : ℕ) : List Record :=
  tabAux headerRowIndex 0 [] values

/-- The source's `main` function (renamed: Lean reserves `main` for entry
points): tabularize every sheet; grouped output keeps the per-sheet map, flat
output concatenates the sheets' records in sheet order. -/
def mainTabularize (valuesBySheet : List (String × Grid)) (groupBySheet : Bool)
    (headerRowIndex : ℕ) : SheetsOrFlat :=
  if groupBySheet then
    .grouped (valuesBySheet.map fun p => (p.1, tabularizeSheet p.2 headerRowIndex))
  else
    .flat (valuesBySheet.map (fun p => tabularizeSheet p.2 headerRowIndex)).flatten

/-- The spec's character class for the numeric cleaner: "strip every
character except digits, `.`, `,`, and `-`". -/
def specKeepChar (c : Char) : Bool :=
  c.isDigit || ['.', ',', '-'].contains c

/-- The numeric/currency cleaner as the spec words it: strip, trim, replace
the first/only comma with a decimal point, parse as floating point. -/
def cleanSpec (s : String) : JsNum :=
  parseFloat (replaceFirstComma (trimList (s.data.filter specKeepChar)))

/-- The matrix a computed field's operation receives, as the spec words it:
per declared source column, the values of candidate names that are present,
non-null and parse as valid numbers, in candidate order; then row `i` is the
`i`-th surviving numeric value of each column, each column advancing
independently. -/
def specColumnPool (row : Record) (f : ComputedField) (col : String) : List ℚ :=
  (col :: variationsFor f.variations col).filterMap fun name =>
    match getProp row name with
    | Value.vNull => none
    | Value.vUndef => none
    | v =>
        match cleanCurrencyValue v with
        | JsNum.num q => some q
        | JsNum.nan => none

/-- Spec-worded regrouping of the per-column pools into rows. -/
def specMatrix (row : Record) (f : ComputedField) : List (List ℚ) :=
  let pools := f.columns.map (specColumnPool row f)
  (List.range ((pools.map List.length).foldl max 0)).map fun i =>
    pools.filterMap fun p => p.get? i

/-- The `purchasePriceVat` operation of the repository's third endpoint
configuration: `values.flat()`, `0` when empty, else
`reduce((a, b) => a + b * 0.21, 0)`. -/
def purchasePriceVatOp (values : List (List ℚ)) : JsNum :=
  let flattenedValues := values.flatten
  if flattenedValues.isEmpty then .num 0
  else .num (flattenedValues.foldl (fun a b => a + b * (21 / 100)) 0)

/-- Concrete mapped field for the C2 counterexample: a plain rename field
with one variation. -/
def c2Field : MappedField :=
  { original := some "a", translated := "t", variations := ["b"] }

/-- Concrete record containing both the primary name and the variation. -/
def c2Row : Record := [("a", Value.vStr "first"), ("b", Value.vStr "second")]

/-- Concrete mapped field for the C3 counterexample: `isNumber` without
`isCurrency`. -/
def c3Field : MappedField :=
  { original := some "x", translated := "y", isNumber := true }

/-- Concrete record whose only candidate value is not numeric. -/
def c3Row : Record := [("x", Value.vStr "abc")]

/-- The end-to-end grid of C4. -/
def c4Grid : Grid := [["Name", "Price"], ["Widget", "€10,50"], ["Gadget", ""]]

/-- The description field of the C4 scenario. -/
def c4NameField : MappedField :=
  { original := some "Name", translated := "description", excludeRowWhenNull := true }

/-- The price field of the C4 scenario. -/
def c4PriceField : MappedField :=
  { original := some "Price", translated := "price", isNumber := true, isCurrency := true }

/-- The end-to-end field list of C4. -/
def c4Fields : List ColumnSpec :=
  [ColumnSpec.mapped c4NameField, ColumnSpec.mapped c4PriceField]

/-- The trimmed string values of the present candidates of a name list, in
visit order: exactly what the candidate loop accumulates in
`valuesToFormat` when no numeric branch breaks out early. -/
def presentStrings (row : Record) : List (Option String) → List String
  | [] => []
  | Option.none :: rest => presentStrings row rest
  | Option.some n :: rest =>
      if hasOwnProperty row n then pushString (getProp row n) ++ presentStrings row rest
      else presentStrings row rest

/-- Whether some candidate name is present with a null/undefined value. -/
def anyPresentNull (row : Record) : List (Option String) → Bool
  | [] => false
  | Option.none :: rest => anyPresentNull row rest
  | Option.some n :: rest =>
      (hasOwnProperty row n && isNullish (getProp row n)) || anyPresentNull row rest

/-- The first candidate name present as a key in the record. -/
def firstPresent (row : Record) : List (Option String) → Option String
  | [] => none
  | Option.none :: rest => firstPresent row rest
  | Option.some n :: rest =>
      if hasOwnProperty row n then some n else firstPresent row rest

/-- The `purchasePriceVat` computed field of the repository's third endpoint
configuration (the parts relevant here; its operation is
`purchasePriceVatOp`). -/
def c6Field : ComputedField :=
  { result := "purchasePriceVat"
    columns := ["Inkoop materialen"]
    variations := [("Inkoop materialen", ["Inkoop", "totaal inkoop"])]
    operation := purchasePriceVatOp }

/-- A computed field whose operation returns 0 and whose default is 5,
exercising the falsy-coercion path of C10. -/
def c10FieldA : ComputedField :=
  { result := "r", columns := ["c"], operation := fun _ => JsNum.num 0, defaultValue := some 5 }

/-- A computed field whose operation returns 0 with no default. -/
def c10FieldB : ComputedField :=
  { result := "r", columns := ["c"], operation := fun _ => JsNum.num 0 }

theorem lookupKey_setProp (r : Record) (k : String) (v : Value) (k' : String) :
    lookupKey (setProp r k v) k' = if k = k' then some v else lookupKey r k' := by
  induction r with
  | nil => by_cases h : k = k' <;> simp [setProp, lookupKey, h]
  | cons p t ih =>
      obtain ⟨a, b⟩ := p
      by_cases hak : a = k
      · subst hak
        by_cases h : a = k' <;> simp [setProp, lookupKey, h]
      · by_cases h : a = k'
        · subst h
          have hka : ¬ k = a := fun hk => hak hk.symm
          simp [setProp, lookupKey, hak, hka]
        · simp [setProp, lookupKey, hak, h, ih]

theorem lookupKey_setProp_self (r : Record) (k : String) (v : Value) :
    lookupKey (setProp r k v) k = some v := by
  simp [lookupKey_setProp]

theorem getProp_setProp_self (r : Record) (k : String) (v : Value) :
    getProp (setProp r k v) k = v := by
  simp [getProp, lookupKey_setProp]

theorem rowToObjectAux_lookup_not_mem (row : List String) (ks : List String) :
    ∀ (obj : Record) (j : ℕ) (k : String), k ∉ ks →
      lookupKey (rowToObjectAux row obj j ks) k = lookupKey obj k := by
  induction ks with
  | nil => intro obj j k _; rfl
  | cons a t ih =>
      intro obj j k h
      simp only [List.mem_cons, not_or] at h
      rw [rowToObjectAux, ih _ _ _ h.2, lookupKey_setProp, if_neg (Ne.symm h.1)]

theorem rowToObjectAux_isSome (row : List String) (ks : List String) :
    ∀ (obj : Record) (j : ℕ) (k : String), k ∈ ks →
      (lookupKey (rowToObjectAux row obj j ks) k).isSome = true := by
  induction ks with
  | nil => intro obj j k h; cases h
  | cons a t ih =>
      intro obj j k h
      by_cases hmem : k ∈ t
      · rw [rowToObjectAux]; exact ih _ _ _ hmem
      · have hka : k = a := by
          rcases List.mem_cons.mp h with h1 | h2
          · exact h1
          · exact absurd h2 hmem
        subst hka
        rw [rowToObjectAux, rowToObjectAux_lookup_not_mem row t _ _ _ hmem,
          lookupKey_setProp_self]
        rfl

theorem rowToObjectAux_null (row : List String) (ks : List String) :
    ∀ (obj : Record) (j : ℕ) (k : String), row.length ≤ j → k ∈ ks →
      lookupKey (rowToObjectAux row obj j ks) k = some Value.vNull := by
  induction ks with
  | nil => intro obj j k _ h; cases h
  | cons a t ih =>
      intro obj j k hj h
      by_cases hmem : k ∈ t
      · rw [rowToObjectAux]; exact ih _ _ _ (le_trans hj (Nat.le_succ j)) hmem
      · have hka : k = a := by
          rcases List.mem_cons.mp h with h1 | h2
          · exact h1
          · exact absurd h2 hmem
        subst hka
        have hcell : cellValue row j = Value.vNull := by
          rw [cellValue, List.get?_eq_none.mpr hj]
        rw [rowToObjectAux, rowToObjectAux_lookup_not_mem row t _ _ _ hmem, hcell,
          lookupKey_setProp_self]

theorem rowToObjectAux_append (row : List String) (a b : List String) :
    ∀ (obj : Record) (j : ℕ),
      rowToObjectAux row obj j (a ++ b) =
        rowToObjectAux row (rowToObjectAux row obj j a) (j + a.length) b := by
  induction a with
  | nil => intro obj j; simp [rowToObjectAux]
  | cons hd t ih =>
      intro obj j
      rw [List.cons_append, rowToObjectAux, rowToObjectAux, ih]
      congr 1
      simp only [List.length_cons]
      omega

theorem tabAux_gt (h : ℕ) (rows : List (List String)) :
    ∀ (i : ℕ) (keys : List String), h < i →
      tabAux h i keys rows = rows.map (rowToObject keys) := by
  induction rows with
  | nil => intro i keys _; rfl
  | cons r rest ih =>
      intro i keys hi
      have h1 : ¬ i = h := by omega
      have h2 : ¬ i ≤ h := by omega
      rw [tabAux, if_neg h1, if_neg h2, ih (i + 1) keys (by omega), List.map_cons]

theorem tabAux_le (h : ℕ) (rows : List (List String)) :
    ∀ (i : ℕ) (keys : List String), i ≤ h →
      tabAux h i keys rows =
        (rows.drop (h + 1 - i)).map (rowToObject ((rows.getD (h - i) []).map jsTrim)) := by
  induction rows with
  | nil => intro i keys _; simp [tabAux]
  | cons r rest ih =>
      intro i keys hi
      by_cases hih : i = h
      · subst hih
        rw [tabAux, if_pos rfl, tabAux_gt i rest (i + 1) _ (by omega)]
        have e1 : i + 1 - i = 0 + 1 := by omega
        have e2 : i - i = 0 := by omega
        rw [e1, e2, List.drop_succ_cons, List.drop_zero, List.getD_cons_zero]
      · have hlt : i < h := lt_of_le_of_ne hi hih
        rw [tabAux, if_neg hih, if_pos hi, ih (i + 1) keys (by omega)]
        have e1 : h + 1 - i = (h + 1 - (i + 1)) + 1 := by omega
        have e2 : h - i = (h - (i + 1)) + 1 := by omega
        rw [e1, e2, List.drop_succ_cons, List.getD_cons_succ]

/-- Claim C7 (confirmed): the tabularizer emits exactly the rows at index
strictly greater than the header-row index, in order, each zipped with the
trimmed header row; rows at index `≤ h` other than `h` itself never appear
in the output record sequence. -/
theorem c7_tabularizer_skips_rows (values : Grid) (h : ℕ) :
    tabularizeSheet values h =
      (values.drop (h + 1)).map (rowToObject ((values.getD h []).map jsTrim)) := by
  have := tabAux_le h values 0 [] (Nat.zero_le h)
  simpa [tabularizeSheet] using this

/-- Claim C8 (confirmed): every header key is a key of the record built from
a data row, and every key in the part of the header beyond the row's cell
count reads as null; tabularization is total, so no error is possible. -/
theorem c8_short_row_nulls (keys row : List String) (k : String) (hk : k ∈ keys) :
    hasOwnProperty (rowToObject keys row) k = true ∧
      (k ∈ keys.drop row.length → getProp (rowToObject keys row) k = Value.vNull) := by
  constructor
  · exact rowToObjectAux_isSome row keys [] 0 k hk
  · intro hd
    have hlt : row.length < keys.length := by
      by_contra hle
      push_neg at hle
      rw [List.drop_eq_nil_of_le hle] at hd
      cases hd
    have hsplit := List.take_append_drop row.length keys
    have hlen : (keys.take row.length).length = row.length := by
      rw [List.length_take]
      omega
    rw [rowToObject, ← hsplit, rowToObjectAux_append, hlen, getProp,
      rowToObjectAux_null row _ _ _ _ (by omega) hd]

/-- Witness for C8 at a concrete short row: key `"b"` of header
`["a", "b"]` with data row `["x"]` is present and null. -/
theorem c8_short_row_nulls_witness :
    hasOwnProperty (rowToObject ["a", "b"] ["x"]) "b" = true ∧
      getProp (rowToObject ["a", "b"] ["x"]) "b" = Value.vNull := by
  have h := c8_short_row_nulls ["a", "b"] ["x"] "b" (by decide)
  exact ⟨h.1, h.2 (by decide)⟩

theorem mappedLoop_excl_mono (row : Record) (f : MappedField) :
    ∀ (names : List (Option String)) (st : LoopState), st.excludeRow = true →
      (mappedLoop row f names st).excludeRow = true := by
  intro names
  induction names with
  | nil => intro st h; exact h
  | cons o rest ih =>
      intro st h
      cases o with
      | none => rw [mappedLoop]; exact ih st h
      | some n =>
          by_cases hown : hasOwnProperty row n
          · simp only [mappedLoop, hown, if_true]
            split
            · split
              · simp [h]
              · exact ih _ rfl
            · split
              · simp [h]
              · exact ih _ (by simp [h])
          · simp only [mappedLoop, hown]
            simp only [Bool.false_eq_true, if_false]
            exact ih st h

theorem mappedLoop_nonNumber (row : Record) (f : MappedField) (hnum : f.isNumber = false) :
    ∀ (names : List (Option String)) (st : LoopState),
      mappedLoop row f names st =
        ⟨st.filteredRow,
          st.excludeRow || (f.excludeRowWhenNull && anyPresentNull row names),
          st.valuesToFormat ++ presentStrings row names⟩ := by
  intro names
  induction names with
  | nil => intro st; simp [mappedLoop, anyPresentNull, presentStrings]
  | cons o rest ih =>
      intro st
      cases o with
      | none => simp [mappedLoop, anyPresentNull, presentStrings, ih]
      | some n =>
          by_cases hown : hasOwnProperty row n
          · simp [mappedLoop, hown, hnum, anyPresentNull, presentStrings, ih,
              Bool.and_or_distrib_left, Bool.or_assoc]
          · simp [mappedLoop, hown, anyPresentNull, presentStrings, ih]

theorem mappedLoop_numCur_success (row : Record) (f : MappedField) (st : LoopState)
    (n : String) (rest : List (Option String)) (q : ℚ)
    (hn : f.isNumber = true) (hc : f.isCurrency = true)
    (hown : hasOwnProperty row n = true)
    (hclean : cleanCurrencyValue (getProp row n) = JsNum.num q) :
    mappedLoop row f (some n :: rest) st =
      ⟨setProp st.filteredRow f.translated (Value.vNum q),
        st.excludeRow || (f.excludeRowWhenNull && isNullish (getProp row n)),
        st.valuesToFormat ++ pushString (getProp row n)⟩ := by
  simp [mappedLoop, hown, hn, hc, hclean]

theorem mappedLoop_numOnly_store (row : Record) (f : MappedField) (st : LoopState)
    (n : String) (rest : List (Option String))
    (hn : f.isNumber = true) (hc : f.isCurrency = false)
    (hown : hasOwnProperty row n = true) :
    mappedLoop row f (some n :: rest) st =
      ⟨setProp st.filteredRow f.translated
          (if truthy (getProp row n) then jsNumToValue (jsToNumber (getProp row n))
           else Value.vNull),
        st.excludeRow || (f.excludeRowWhenNull && isNullish (getProp row n)),
        st.valuesToFormat ++ pushString (getProp row n)⟩ := by
  simp [mappedLoop, hown, hn, hc]

theorem mappedLoop_numOnly_noExclude (row : Record) (f : MappedField)
    (hn : f.isNumber = true) (hc : f.isCurrency = false) (he : f.excludeRowWhenNull = false) :
    ∀ (names : List (Option String)) (st : LoopState),
      (mappedLoop row f names st).excludeRow = st.excludeRow := by
  intro names
  induction names with
  | nil => intro st; rfl
  | cons o rest ih =>
      intro st
      cases o with
      | none => rw [mappedLoop]; exact ih st
      | some n =>
          by_cases hown : hasOwnProperty row n
          · simp [mappedLoop, hown, hn, hc, he]
          · simp only [mappedLoop, hown]
            simp only [Bool.false_eq_true, if_false]
            exact ih st

theorem mappedLoop_first_present_fail (row : Record) (f : MappedField)
    (hn : f.isNumber = true) (hc : f.isCurrency = true) :
    ∀ (names : List (Option String)) (st : LoopState) (n : String),
      firstPresent row names = some n →
      cleanCurrencyValue (getProp row n) = JsNum.nan →
      (mappedLoop row f names st).excludeRow = true := by
  intro names
  induction names with
  | nil => intro st n h; simp [firstPresent] at h
  | cons o rest ih =>
      intro st n hfp hclean
      cases o with
      | none =>
          rw [firstPresent] at hfp
          rw [mappedLoop]
          exact ih st n hfp hclean
      | some m =>
          by_cases hown : hasOwnProperty row m
          · rw [firstPresent, if_pos hown] at hfp
            obtain rfl : m = n := by injection hfp
            simp only [mappedLoop, hown, if_true, hn, hc, Bool.and_self, hclean]
            exact mappedLoop_excl_mono row f rest _ rfl
          · rw [firstPresent, if_neg hown] at hfp
            simp only [mappedLoop, hown, Bool.false_eq_true, if_false]
            exact ih st n hfp hclean

theorem applyMapped_excl_mono (row : Record) (f : MappedField) (st : Record × Bool)
    (h : (mappedLoop row f (possibleNamesOf f) ⟨st.1, st.2, []⟩).excludeRow = true) :
    (applyMapped row f st).2 = true := by
  unfold applyMapped
  cases hf : f.format
  · simp only []
    split
    · exact h
    · exact h
  · exact h

theorem applyColumn_excl_mono (row : Record) (c : NColumn) (st : Record × Bool)
    (h : st.2 = true) : (applyColumn row st c).2 = true := by
  cases c with
  | computed f => exact h
  | mapped f =>
      exact applyMapped_excl_mono row f st
        (mappedLoop_excl_mono row f (possibleNamesOf f) ⟨st.1, st.2, []⟩ h)

theorem foldl_excl_mono (row : Record) :
    ∀ (cols : List NColumn) (st : Record × Bool), st.2 = true →
      (cols.foldl (applyColumn row) st).2 = true := by
  intro cols
  induction cols with
  | nil => intro st h; exact h
  | cons c t ih => intro st h; exact ih _ (applyColumn_excl_mono row c st h)

theorem row_dropped_of_first_present_fail (row : Record) (f : MappedField)
    (cols1 cols2 : List ColumnSpec) (n : String)
    (hn : f.isNumber = true) (hc : f.isCurrency = true)
    (hfp : firstPresent row (possibleNamesOf f) = some n)
    (hclean : cleanCurrencyValue (getProp row n) = JsNum.nan) :
    filterAndTranslateRow (cols1 ++ ColumnSpec.mapped f :: cols2) row = none := by
  have hstep :
      (applyColumn row ((cols1.map normalizeColumn).foldl (applyColumn row) ([], false))
        (normalizeColumn (ColumnSpec.mapped f))).2 = true := by
    apply applyMapped_excl_mono
    exact mappedLoop_first_present_fail row f hn hc (possibleNamesOf f) _ n hfp hclean
  have hfinal :
      ((((cols1 ++ ColumnSpec.mapped f :: cols2).map normalizeColumn).foldl
        (applyColumn row) ([], false)).2 : Bool) = true := by
    rw [List.map_append, List.foldl_append, List.map_cons, List.foldl_cons]
    exact foldl_excl_mono row (cols2.map normalizeColumn) _ hstep
  unfold filterAndTranslateRow
  exact if_pos hfinal

theorem applyMapped_plain_store (row : Record) (f : MappedField) (st0 : Record × Bool)
    (h1 : f.isNumber = false) (h2 : f.isCurrency = false) (h3 : f.format = none) :
    lookupKey (applyMapped row f st0).1 f.translated =
      some (strOrDefault (presentStrings row (possibleNamesOf f)).getLast? f.defaultValue) := by
  unfold applyMapped
  rw [mappedLoop_nonNumber row f h1]
  simp [h3, h1, h2, lookupKey_setProp_self]

/-- Claim C2 (corrected): candidate resolution does not stop at the first
present name in general.  What holds: (1) for a non-numeric field the loop
visits every candidate, accumulating each present string value and marking
the row excluded when `excludeRowWhenNull` meets any present null candidate;
(2) for a plain non-numeric formatless field the stored value comes from the
last accumulated string (with the `|| defaultValue || null` fallback), so
the last present string candidate wins; (3) scanning does stop at the first
present name when the field is numeric (`isNumber`), provided a currency
field parses that value successfully. -/
theorem c2_candidate_resolution_amended :
    (∀ (row : Record) (f : MappedField) (st : LoopState), f.isNumber = false →
        mappedLoop row f (possibleNamesOf f) st =
          ⟨st.filteredRow,
            st.excludeRow || (f.excludeRowWhenNull && anyPresentNull row (possibleNamesOf f)),
            st.valuesToFormat ++ presentStrings row (possibleNamesOf f)⟩) ∧
    (∀ (row : Record) (f : MappedField) (st0 : Record × Bool),
        f.isNumber = false → f.isCurrency = false → f.format = none →
        lookupKey (applyMapped row f st0).1 f.translated =
          some (strOrDefault (presentStrings row (possibleNamesOf f)).getLast?
            f.defaultValue)) ∧
    (∀ (row : Record) (f : MappedField) (st : LoopState) (n : String)
        (rest rest' : List (Option String)), f.isNumber = true →
        hasOwnProperty row n = true →
        (f.isCurrency = true → cleanCurrencyValue (getProp row n) ≠ JsNum.nan) →
        mappedLoop row f (some n :: rest) st = mappedLoop row f (some n :: rest') st) := by
  refine ⟨fun row f st h => mappedLoop_nonNumber row f h _ st,
    applyMapped_plain_store, ?_⟩
  intro row f st n rest rest' hn hown hnc
  by_cases hc : f.isCurrency = true
  · cases hcv : cleanCurrencyValue (getProp row n) with
    | nan => exact absurd hcv (hnc hc)
    | num q =>
        rw [mappedLoop_numCur_success row f st n rest q hn hc hown hcv,
          mappedLoop_numCur_success row f st n rest' q hn hc hown hcv]
  · have hc' : f.isCurrency = false := by revert hc; cases f.isCurrency <;> simp
    rw [mappedLoop_numOnly_store row f st n rest hn hc' hown,
      mappedLoop_numOnly_store row f st n rest' hn hc' hown]

/-- Counterexample to C2 as stated: for the plain field
`\x7b original: "a", variations: ["b"], translated: "t" \x7d` and a record
containing both `"a"` and `"b"`, the variation's value wins, not the
primary's. -/
theorem c2_candidate_resolution_counterexample :
    filterAndTranslateRow [ColumnSpec.mapped c2Field] c2Row =
        some [("t", Value.vStr "second")] ∧
      filterAndTranslateRow [ColumnSpec.mapped c2Field] c2Row ≠
        some [("t", Value.vStr "first")] := by
  constructor
  · with_unfolding_all decide
  · with_unfolding_all decide

/-- Witness for the amended C2 at concrete inputs: the plain-field store rule
on `c2Row`, and early termination of the scan for a successful currency
parse. -/
theorem c2_candidate_resolution_amended_witness :
    lookupKey (applyMapped c2Row c2Field ([], false)).1 c2Field.translated =
        some (Value.vStr "second") ∧
      mappedLoop [("p", Value.vStr "5")] c4PriceField [some "p", some "q"] ⟨[], false, []⟩ =
        mappedLoop [("p", Value.vStr "5")] c4PriceField [some "p"] ⟨[], false, []⟩ := by
  constructor
  · exact (c2_candidate_resolution_amended.2.1 c2Row c2Field ([], false) rfl rfl rfl).trans
      (by with_unfolding_all decide)
  · exact c2_candidate_resolution_amended.2.2 [("p", Value.vStr "5")] c4PriceField
      ⟨[], false, []⟩ "p" [some "q"] [] rfl (by with_unfolding_all decide)
      (fun _ => by with_unfolding_all decide)

/-- Claim C3 (corrected): the described behaviour — clean, store and stop on
success, exclude (and ultimately drop the row) on parse failure — holds when
both `isNumber` and `isCurrency` are set; with `isNumber` alone the first
implementation stores `value ? Number(value) : null` without the cleaner and
never sets the exclusion flag. -/
theorem c3_mapped_number_amended :
    (∀ (row : Record) (f : MappedField) (st : LoopState) (n : String)
        (rest : List (Option String)) (q : ℚ),
        f.isNumber = true → f.isCurrency = true → hasOwnProperty row n = true →
        cleanCurrencyValue (getProp row n) = JsNum.num q →
        mappedLoop row f (some n :: rest) st =
          ⟨setProp st.filteredRow f.translated (Value.vNum q),
            st.excludeRow || (f.excludeRowWhenNull && isNullish (getProp row n)),
            st.valuesToFormat ++ pushString (getProp row n)⟩) ∧
    (∀ (row : Record) (f : MappedField) (cols1 cols2 : List ColumnSpec) (n : String),
        f.isNumber = true → f.isCurrency = true →
        firstPresent row (possibleNamesOf f) = some n →
        cleanCurrencyValue (getProp row n) = JsNum.nan →
        filterAndTranslateRow (cols1 ++ ColumnSpec.mapped f :: cols2) row = none) ∧
    (∀ (row : Record) (f : MappedField) (names : List (Option String)) (st : LoopState),
        f.isNumber = true → f.isCurrency = false → f.excludeRowWhenNull = false →
        (mappedLoop row f names st).excludeRow = st.excludeRow) := by
  refine ⟨?_, ?_, ?_⟩
  · intro row f st n rest q hn hc hown hclean
    exact mappedLoop_numCur_success row f st n rest q hn hc hown hclean
  · intro row f cols1 cols2 n hn hc hfp hclean
    exact row_dropped_of_first_present_fail row f cols1 cols2 n hn hc hfp hclean
  · intro row f names st hn hc he
    exact mappedLoop_numOnly_noExclude row f hn hc he names st

/-- Counterexample to C3 as stated: for the field
`\x7b original: "x", translated: "y", isNumber: true \x7d` (no `isCurrency`)
and the record `\x7b x: "abc" \x7d`, the row is kept with `y = NaN` instead
of being excluded. -/
theorem c3_mapped_number_counterexample :
    filterAndTranslateRow [ColumnSpec.mapped c3Field] c3Row = some [("y", Value.vNaN)] ∧
      filterAndTranslateRow [ColumnSpec.mapped c3Field] c3Row ≠ none := by
  constructor
  · with_unfolding_all decide
  · with_unfolding_all decide

/-- Witness for the amended C3 at concrete inputs: a successful currency
parse stores `10.5` and stops, and a failing parse drops the row. -/
theorem c3_mapped_number_amended_witness :
    mappedLoop [("Price", Value.vStr "€10,50")] c4PriceField [some "Price"]
        ⟨[], false, []⟩ = ⟨[("price", Value.vNum (21 / 2))], false, ["€10,50"]⟩ ∧
      filterAndTranslateRow ([] ++ ColumnSpec.mapped c4PriceField :: [])
        [("Price", Value.vStr "")] = none := by
  constructor
  · refine (c3_mapped_number_amended.1 [("Price", Value.vStr "€10,50")] c4PriceField
      ⟨[], false, []⟩ "Price" [] (21 / 2) rfl rfl (by with_unfolding_all decide)
      (by with_unfolding_all decide)).trans ?_
    simp only [LoopState.mk.injEq]
    refine ⟨?_, ?_, ?_⟩ <;> with_unfolding_all decide
  · exact c3_mapped_number_amended.2.1 [("Price", Value.vStr "")] c4PriceField [] [] "Price"
      rfl rfl (by with_unfolding_all decide) (by with_unfolding_all decide)

theorem columnNumericValues_eq_spec (row : Record) (f : ComputedField) (col : String) :
    columnNumericValues row f col = specColumnPool row f col := by
  unfold columnNumericValues specColumnPool keepNums
  rw [List.filterMap_map]
  congr 1
  funext name
  cases hv : getProp row name <;> simp [hv, Function.comp]

/-- Claim C5 (confirmed): the matrix handed to a computed field's operation
equals, pointwise, the spec's description â per declared source column the
candidate values that are present, non-null and parse as numbers, in
candidate order, regrouped positionally with columns advancing
independently.  The matrix has type `List (List ℚ)`: by construction the
operation never receives raw cell strings or NaN entries. -/
theorem c5_computed_matrix_refines (row : Record) (f : ComputedField) :
    codeMatrix row f = specMatrix row f := by
  have hfun : columnNumericValues row f = specColumnPool row f :=
    funext fun col => columnNumericValues_eq_spec row f col
  unfold codeMatrix specMatrix groupedMatrix
  rw [hfun]

theorem foldl_max_zeros :
    ∀ (l : List ℕ), (∀ x ∈ l, x = 0) → l.foldl max 0 = 0 := by
  intro l
  induction l with
  | nil => intro _; rfl
  | cons a t ih =>
      intro h
      have ha := h a (by simp)
      rw [List.foldl_cons, ha, max_self]
      exact ih fun x hx => h x (List.mem_cons_of_mem _ hx)

/-- Claim C6 (confirmed): a computed column never changes the row-exclusion
flag and always stores a real number (never NaN, never an error); when every
source column's candidate pool is empty and the operation maps the empty
matrix to 0 (as every operation in the repository does via its
`flattenedValues.length === 0` guard), the stored value is 0 or the field's
`defaultValue`. -/
theorem c6_computed_empty_default (f : ComputedField) (row : Record) (st : Record × Bool) :
    (applyColumn row st (NColumn.computed f)).2 = st.2 ∧
    (∃ q, lookupKey (applyColumn row st (NColumn.computed f)).1 f.result =
        some (Value.vNum q)) ∧
    ((∀ col ∈ f.columns, columnNumericValues row f col = []) →
      f.operation [] = JsNum.num 0 →
      ∃ q, lookupKey (applyColumn row st (NColumn.computed f)).1 f.result =
          some (Value.vNum q) ∧ (q = 0 ∨ f.defaultValue = some q)) := by
  refine ⟨rfl, ⟨computedStored (f.operation (codeMatrix row f)) f.defaultValue,
    by simp [applyColumn, computedAssign, lookupKey_setProp_self]⟩, ?_⟩
  intro h1 h2
  have hmat : codeMatrix row f = [] := by
    unfold codeMatrix groupedMatrix
    have hcols : f.columns.map (columnNumericValues row f) =
        f.columns.map (fun _ => ([] : List ℚ)) := List.map_congr_left h1
    rw [hcols]
    have hlen : (((f.columns.map (fun _ => ([] : List ℚ))).map List.length).foldl max 0) = 0 := by
      apply foldl_max_zeros
      intro x hx
      simp only [List.map_map, List.mem_map, Function.comp] at hx
      obtain ⟨a, -, hxa⟩ := hx
      simp [← hxa]
    rw [hlen]
    rfl
  refine ⟨computedStored (f.operation []) f.defaultValue, ?_, ?_⟩
  · simp [applyColumn, computedAssign, hmat, lookupKey_setProp_self]
  · rw [h2]
    unfold computedStored
    cases hdv : f.defaultValue with
    | none => simp
    | some d =>
        by_cases hd : d = 0
        · simp [hd]
        · simp [hd, hdv]

/-- Witness for C6: the repository's `purchasePriceVat` computed field on an
empty record keeps the exclusion flag false and stores the number 0. -/
theorem c6_computed_empty_default_witness :
    (applyColumn [] ([], false) (NColumn.computed c6Field)).2 = false ∧
      lookupKey (applyColumn [] ([], false) (NColumn.computed c6Field)).1
        c6Field.result = some (Value.vNum 0) := by
  have h := c6_computed_empty_default c6Field [] ([], false)
  obtain ⟨q, hq, hq0⟩ := h.2.2 (by with_unfolding_all decide) (by with_unfolding_all decide)
  refine ⟨h.1, ?_⟩
  rcases hq0 with rfl | hd
  · exact hq
  · rw [show c6Field.defaultValue = none from rfl] at hd
    cases hd

/-- Claim C10 (confirmed): a computed field whose operation result is falsy
(0 or NaN) stores `defaultValue` when it is set and nonzero, and 0 when no
`defaultValue` is set, because the stored value is
`result || defaultValue || 0`. -/
theorem c10_computed_falsy_default (f : ComputedField) (row : Record) (st : Record × Bool)
    (hfalsy : f.operation (codeMatrix row f) = JsNum.num 0 ∨
      f.operation (codeMatrix row f) = JsNum.nan) :
    (∀ d : ℚ, f.defaultValue = some d → d ≠ 0 →
      lookupKey (applyColumn row st (NColumn.computed f)).1 f.result =
        some (Value.vNum d)) ∧
    (f.defaultValue = none →
      lookupKey (applyColumn row st (NColumn.computed f)).1 f.result =
        some (Value.vNum 0)) := by
  constructor
  · intro d hd hd0
    have hstored : computedStored (f.operation (codeMatrix row f)) f.defaultValue = d := by
      rcases hfalsy with h | h <;> rw [h] <;> unfold computedStored <;> simp [hd, hd0]
    simp [applyColumn, computedAssign, lookupKey_setProp_self, hstored]
  · intro hd
    have hstored : computedStored (f.operation (codeMatrix row f)) f.defaultValue = 0 := by
      rcases hfalsy with h | h <;> rw [h] <;> unfold computedStored <;> simp [hd]
    simp [applyColumn, computedAssign, lookupKey_setProp_self, hstored]

/-- Witness for C10 at two concrete fields: a zero operation result is
coerced to the nonzero default 5, and to 0 when no default is set. -/
theorem c10_computed_falsy_default_witness :
    lookupKey (applyColumn [] ([], false) (NColumn.computed c10FieldA)).1
        c10FieldA.result = some (Value.vNum 5) ∧
      lookupKey (applyColumn [] ([], false) (NColumn.computed c10FieldB)).1
        c10FieldB.result = some (Value.vNum 0) := by
  constructor
  · exact (c10_computed_falsy_default c10FieldA [] ([], false) (Or.inl rfl)).1 5 rfl
      (by norm_num)
  · exact (c10_computed_falsy_default c10FieldB [] ([], false) (Or.inl rfl)).2 rfl

theorem filterMap_id_map (f : Record → Option Record) (l : List Record) :
    (l.map f).filterMap id = l.filterMap f := by
  rw [List.filterMap_map]
  rfl

/-- Claim C9 (confirmed): the column mapper preserves the grouping shape â
a flat sequence maps to the ordered `filterMap` of its rows, a per-sheet map
maps to the per-sheet independent `filterMap` with the sheet key list
preserved (even when a sheet filters to empty). -/
theorem c9_shape_preserved (columns : List ColumnSpec) (l : List Record)
    (m : List (String × List Record)) :
    filterColumns (SheetsOrFlat.flat l) columns =
        SheetsOrFlat.flat (l.filterMap (filterAndTranslateRow columns)) ∧
      filterColumns (SheetsOrFlat.grouped m) columns =
        SheetsOrFlat.grouped
          (m.map fun p => (p.1, p.2.filterMap (filterAndTranslateRow columns))) ∧
      (m.map fun p => (p.1, p.2.filterMap (filterAndTranslateRow columns))).map Prod.fst =
        m.map Prod.fst := by
  refine ⟨?_, ?_, ?_⟩
  · simp [filterColumns, filterMap_id_map]
  · simp [filterColumns, filterMap_id_map]
  · simp

theorem spec_keep_eq (c : Char) : specKeepChar c = keepNumChar c := by
  by_cases h1 : c = '.'
  · subst h1; decide
  by_cases h2 : c = ','
  · subst h2; decide
  by_cases h3 : c = '-'
  · subst h3; decide
  have e1 : (c == '.') = false := beq_eq_false_iff_ne.mpr h1
  have e2 : (c == ',') = false := beq_eq_false_iff_ne.mpr h2
  have e3 : (c == '-') = false := beq_eq_false_iff_ne.mpr h3
  simp [specKeepChar, keepNumChar, List.contains_cons, e1, e2, e3]
  rintro (h | h | h)
  · exact absurd h h1
  · exact absurd h h2
  · exact absurd h h3

/-- Claim C1 (corrected): the cleaner is exactly the spec's strip / trim /
replace-first-comma / parseFloat pipeline, and `"abc"` parses to NaN; but
`"€ 1.234,56"` cleans to 1.234 (parseFloat stops at the second dot of
`"1.234.56"`), not 1234.56. -/
theorem c1_cleaner_amended :
    (∀ s : String, cleanCurrencyValue (Value.vStr s) = cleanSpec s) ∧
      cleanCurrencyValue (Value.vStr "€ 1.234,56") = JsNum.num (617 / 500) ∧
      cleanCurrencyValue (Value.vStr "abc") = JsNum.nan := by
  refine ⟨?_, by with_unfolding_all decide, by with_unfolding_all decide⟩
  intro s
  have hf : s.data.filter keepNumChar = s.data.filter specKeepChar :=
    List.filter_congr fun c _ => (spec_keep_eq c).symm
  show parseFloat (replaceFirstComma (trimList (s.data.filter keepNumChar))) =
    parseFloat (replaceFirstComma (trimList (s.data.filter specKeepChar)))
  rw [hf]

/-- Counterexample to C1 as stated: the cleaner does not produce 1234.56
from `"€ 1.234,56"`. -/
theorem c1_cleaner_counterexample :
    cleanCurrencyValue (Value.vStr "€ 1.234,56") ≠ JsNum.num (123456 / 100) := by
  with_unfolding_all decide

/-- Claim C4 (confirmed): the end-to-end scenario â tabularize the concrete
grid with header row 0, then map the description/price fields â returns
exactly one record, the second row being excluded by its failing price
parse. -/
theorem c4_end_to_end :
    filterColumns (mainTabularize [("Sheet1", c4Grid)] false 0) c4Fields =
      SheetsOrFlat.flat
        [[("description", Value.vStr "Widget"), ("price", Value.vNum (21 / 2))]] := by
  with_unfolding_all decide
